import Mathlib

/-!
Verification of the goggles crawler / search-engine repository.

This file shallowly embeds the parts of `src/python/advanced_search.py` and
`src/python/mass_crawler.py` that the specification's claims are about, and
proves or refutes each claim against the embedding.

Conventions of the embedding:
- Python strings are Lean `String`s; character-level work happens on `String.data`.
- Python `int`s that are only ever non-negative in the program are `Nat`.
- Floating point similarity scores are modelled as rationals (`Rat`); the
  fixed thresholds 0.01 and 0.1 become `mkRat 1 100` and `mkRat 1 10`.
- The sklearn calls that produce cosine-similarity scores are external library
  collaborators (spec section 1 and section 9 treat the vectorised math as a
  delegated primitive), so ranking functions are parameterised by the list of
  similarity scores; everything the repository code itself does with those
  scores (argsort, slicing, thresholding, ordering) is embedded exactly.
- `numpy.argsort` (ascending, equal keys kept in index order as the small-array
  insertion sort does) is modelled as a stable sort of `List.range n` by key.
- The MySQL store is modelled as an in-memory list of rows; `INSERT IGNORE`
  on the unique `title` key becomes a fold that skips duplicate titles.
-/

/-! ## Text preprocessing (`advanced_search.py`, `AdvancedSearchEngine.preprocess_text`) -/

/-- The ASCII whitespace characters recognised by Python's `str.split()` and
by the `\s` class of the regex in `preprocess_text`. -/
def isPySpace (c : Char) : Bool :=
  c = ' ' || c = '\t' || c = '\n' || c = '\x0b' || c = '\x0c' || c = '\r'

/-- One character of `preprocess_text`'s pipeline: `text.lower()` followed by
`re.sub(r'[^a-zA-Z0-9\s]', ' ', text)`.  Both operations are per-character, so
they compose into this map: lowercase the character, keep it if it is
alphanumeric or whitespace, and otherwise replace it with a space. -/
def normChar (c : Char) : Char :=
  let d := c.toLower
  if d.isAlphanum || isPySpace d then d else ' '

/-- One step of splitting on whitespace: a whitespace character opens a
fresh (empty) chunk; a non-whitespace character is prepended to the current
chunk. -/
def splitStep (c : Char) (ws : List (List Char)) : List (List Char) :=
  if isPySpace c then [] :: ws
  else
    match ws with
    | [] => [[c]]
    | w :: rest => (c :: w) :: rest

/-- The chunks of `l` between whitespace characters (possibly empty). -/
def splitChunks (l : List Char) : List (List Char) :=
  l.foldr splitStep []

/-- `text.split()`: the maximal runs of non-whitespace characters, in order
— the chunks between whitespace characters with the empty ones dropped. -/
def pyWords (l : List Char) : List (List Char) :=
  (splitChunks l).filter (fun w => !w.isEmpty)

/-- `' '.join(words)`. -/
def joinWords : List (List Char) → List Char
  | [] => []
  | [w] => w
  | w :: ws => w ++ ' ' :: joinWords ws

/-- `AdvancedSearchEngine.preprocess_text` on the character list: lowercase,
replace non-alphanumeric characters by spaces, collapse whitespace. -/
def preprocessList (l : List Char) : List Char :=
  joinWords (pyWords (l.map normChar))

/-- `AdvancedSearchEngine.preprocess_text` (`advanced_search.py` lines 29-43).
The `if not text: return ""` guard is subsumed: the pipeline maps the empty
string to the empty string. -/
def preprocess_text (s : String) : String :=
  ⟨preprocessList s.data⟩

/-! ## Quality filter (`mass_crawler.py`, `MassCrawler.is_quality_article`) -/

/-- `str.lower()` (the inputs exercised here are ASCII, where Lean's
`Char.toLower` agrees with Python). -/
def strLower (s : String) : String :=
  ⟨s.data.map Char.toLower⟩

/-- Python's substring test `pattern in s`. -/
def containsSub (pat s : String) : Bool :=
  decide (pat.data <:+: s.data)

/-- The `skip_patterns` list of `is_quality_article`. -/
def skip_patterns : List String :=
  ["disambiguation", "may refer to", "list of", "index of",
   "category:", "template:", "file:", "portal:"]

/-- `MassCrawler.is_quality_article` (`mass_crawler.py` lines 151-174):
reject if any skip pattern occurs in the lowercased title or summary, then
require `len(content) >= 1000` and `len(summary) >= 100`. -/
def is_quality_article (title content summary : String) : Bool :=
  let title_lower := strLower title
  let summary_lower := strLower summary
  if skip_patterns.any (fun p => containsSub p title_lower || containsSub p summary_lower) then
    false
  else if content.length < 1000 then
    false
  else if summary.length < 100 then
    false
  else
    true

/-! ## Argsort (model of `numpy.argsort`, ascending)

`numpy.argsort` with the default `kind='quicksort'` is documented as NOT
stable: it returns some permutation of the indices along which the keys are
non-decreasing, with no specified order among equal keys (below numpy's
internal insertion-sort cutoff of about sixteen elements the result does
coincide with the stable order).  Where a theorem's conclusion could depend
on the order of equal keys, it is therefore stated over every such admissible
outcome; `argsortStable` below is one concrete, executable outcome — the
stable one, which is the exact behaviour on the small arrays used in the
concrete evaluations here — used as the declared determinization where the
conclusions are tie-order independent. -/

/-- Comparing positions `i`, `j` by their keys, breaking ties by position:
the order realised by a stable ascending sort of the index list. -/
def keyLe {κ : Type} [LinearOrder κ] (key : Nat → κ) (i j : Nat) : Prop :=
  key i < key j ∨ (key i = key j ∧ i ≤ j)

instance keyLeDecidable {κ : Type} [LinearOrder κ] (key : Nat → κ) :
    DecidableRel (keyLe key) :=
  fun _ _ => inferInstanceAs (Decidable (_ ∨ _))

theorem keyLe_total {κ : Type} [LinearOrder κ] (key : Nat → κ) :
    ∀ i j, keyLe key i j ∨ keyLe key j i := by
  intro i j
  rcases lt_trichotomy (key i) (key j) with h | h | h
  · exact Or.inl (Or.inl h)
  · rcases Nat.le_total i j with hij | hij
    · exact Or.inl (Or.inr ⟨h, hij⟩)
    · exact Or.inr (Or.inr ⟨h.symm, hij⟩)
  · exact Or.inr (Or.inl h)

theorem keyLe_trans {κ : Type} [LinearOrder κ] (key : Nat → κ) :
    ∀ i j k, keyLe key i j → keyLe key j k → keyLe key i k := by
  intro i j k hij hjk
  rcases hij with h1 | ⟨h1, h1'⟩
  · rcases hjk with h2 | ⟨h2, _⟩
    · exact Or.inl (h1.trans h2)
    · exact Or.inl (h2 ▸ h1)
  · rcases hjk with h2 | ⟨h2, h2'⟩
    · exact Or.inl (h1 ▸ h2)
    · exact Or.inr ⟨h1.trans h2, h1'.trans h2'⟩

/-- One admissible `numpy.argsort` outcome: the positions `0, …, n-1` sorted
ascending by key, stably (this is exactly numpy's behaviour below its
insertion-sort cutoff; for larger arrays numpy guarantees only the
`IsArgsortAsc` properties stated further down). -/
def argsortStable {κ : Type} [LinearOrder κ] (key : Nat → κ) (n : Nat) : List Nat :=
  List.insertionSort (keyLe key) (List.range n)

theorem argsortStable_sorted {κ : Type} [LinearOrder κ] (key : Nat → κ) (n : Nat) :
    List.Sorted (keyLe key) (argsortStable key n) := by
  haveI : IsTotal Nat (keyLe key) := ⟨keyLe_total key⟩
  haveI : IsTrans Nat (keyLe key) := ⟨fun a b c => keyLe_trans key a b c⟩
  exact List.sorted_insertionSort (keyLe key) (List.range n)

theorem argsortStable_perm {κ : Type} [LinearOrder κ] (key : Nat → κ) (n : Nat) :
    (argsortStable key n).Perm (List.range n) :=
  List.perm_insertionSort (keyLe key) (List.range n)

theorem argsortStable_mem_lt {κ : Type} [LinearOrder κ] (key : Nat → κ) (n : Nat)
    {i : Nat} (h : i ∈ argsortStable key n) : i < n := by
  have := (argsortStable_perm key n).mem_iff.mp h
  exact List.mem_range.mp this

theorem argsortStable_nodup {κ : Type} [LinearOrder κ] (key : Nat → κ) (n : Nat) :
    (argsortStable key n).Nodup :=
  (argsortStable_perm key n).nodup_iff.mpr (List.nodup_range n)

theorem argsortStable_length {κ : Type} [LinearOrder κ] (key : Nat → κ) (n : Nat) :
    (argsortStable key n).length = n := by
  have := (argsortStable_perm key n).length_eq
  simpa using this

/-- Python's slice `xs[-limit:]` for a non-negative `limit`: the whole list
when `limit = 0` (because `xs[-0:]` is `xs[0:]`), otherwise the last `limit`
elements. -/
def takeLastPy {α : Type} (limit : Nat) (l : List α) : List α :=
  if limit = 0 then l else l.drop (l.length - limit)

/-! ## Ranked search (`advanced_search.py`, `AdvancedSearchEngine.advanced_search`) -/

/-- The fixed minimum similarity threshold of `advanced_search`
(`if similarity_score > 0.01`). -/
def similarityThreshold : Rat := mkRat 1 100

/-- The stricter floor used by `get_related_articles`
(`similarities[idx] > 0.1`). -/
def relatedThreshold : Rat := mkRat 1 10

/-- A built index model, as far as the ranking code consumes it for one query:
the cosine similarity of the query vector against document row `i`
(`cosine_similarity(query_vector, self.tfidf_matrix).flatten()`, computed by
the external sklearn collaborator) and the parallel `article_ids` list, which
`build_search_index` fills in ascending database-id order (`ORDER BY id`). -/
structure SearchModel where
  sims : List Rat
  articleIds : List Nat

/-- What `similarities.argsort()` is specified to return for the row
`m.sims`: some permutation of the row indices along which the similarities
are non-decreasing.  numpy's default quicksort is not stable, so the order
of equal similarities within the result is unspecified; any `order`
satisfying this predicate is an admissible outcome. -/
def IsArgsortAsc (sims : List Rat) (order : List Nat) : Prop :=
  order.Perm (List.range sims.length) ∧
  order.Pairwise (fun i j => sims.getD i 0 ≤ sims.getD j 0)

/-- `AdvancedSearchEngine.advanced_search` (`advanced_search.py` lines
144-187), from the point where `similarities` is in hand, with the argsort
outcome `order` made explicit:
`top_indices = order[-limit:][::-1]`, then keep the entries whose similarity
exceeds the threshold, pairing each with its article id.  The per-result
`SELECT` of the article row is modelled as always finding the row (the ids
come from the same table). -/
def advanced_search_with (order : List Nat) (m : SearchModel) (limit : Nat) :
    List (Nat × Rat) :=
  let sims := m.sims
  let top_indices := (takeLastPy limit order).reverse
  top_indices.filterMap (fun idx =>
    if similarityThreshold < sims.getD idx 0 then
      some (m.articleIds.getD idx 0, sims.getD idx 0)
    else
      none)

/-- `advanced_search` with the stable argsort outcome — numpy's exact
behaviour on arrays below the insertion-sort cutoff, such as the two-row
models evaluated concretely below. -/
def advanced_search (m : SearchModel) (limit : Nat) : List (Nat × Rat) :=
  advanced_search_with (argsortStable (fun i => m.sims.getD i 0) m.sims.length) m limit

/-- The ordering the claim asserts for search results: similarity strictly
decreasing, with equal similarities ordered by ascending article id. -/
def tieAscOrdered (rs : List (Nat × Rat)) : Prop :=
  List.Chain' (fun a b => b.2 < a.2 ∨ (a.2 = b.2 ∧ a.1 < b.1)) rs

instance tieAscOrderedDecidable (rs : List (Nat × Rat)) : Decidable (tieAscOrdered rs) :=
  inferInstanceAs (Decidable
    (List.Chain' (fun a b : Nat × Rat => b.2 < a.2 ∨ (a.2 = b.2 ∧ a.1 < b.1)) rs))

/-! ## Related articles (`advanced_search.py`, `AdvancedSearchEngine.get_related_articles`) -/

/-- The index model as consumed by `get_related_articles`: the ordered
`article_ids` list and the document-to-document cosine similarities
(`cosine_similarity(target_vector, self.tfidf_matrix)`, again delegated to
the external library). -/
structure RelatedModel where
  articleIds : List Nat
  simMatrix : Nat → Nat → Rat

/-- `AdvancedSearchEngine.get_related_articles` (`advanced_search.py` lines
189-233).  `self.article_ids.index(article_id)` raises `ValueError` when the
id is absent; the surrounding `try`/`except ValueError` turns that into a
logged warning and an empty result, which the `match` on `findIdx?` mirrors.
Otherwise: similarities of the target row against every row,
`argsort()[-limit-1:][::-1]`, keep entries other than the target itself with
similarity above `0.1`, and truncate to `limit`. -/
def get_related_articles (m : RelatedModel) (article_id : Nat) (limit : Nat) :
    List (Nat × Rat) :=
  match m.articleIds.findIdx? (fun x => x == article_id) with
  | none => []
  | some target_idx =>
    let n := m.articleIds.length
    let sims := (List.range n).map (fun j => m.simMatrix target_idx j)
    let top_indices :=
      (takeLastPy (limit + 1) (argsortStable (fun i => sims.getD i 0) sims.length)).reverse
    let results := top_indices.filterMap (fun idx =>
      if idx ≠ target_idx ∧ relatedThreshold < sims.getD idx 0 then
        some (m.articleIds.getD idx 0, sims.getD idx 0)
      else
        none)
    results.take limit

/-! ## Search suggestions (`advanced_search.py`, `AdvancedSearchEngine.search_suggestions`) -/

/-- `title LIKE 'pat%'` under MySQL's default case-insensitive collation:
the lowercased pattern starts the lowercased title. -/
def likeStarts (pat t : String) : Bool :=
  decide ((strLower pat).data <+: (strLower t).data)

/-- `title LIKE '%pat%'`: the lowercased pattern occurs in the lowercased
title. -/
def likeContains (pat t : String) : Bool :=
  decide ((strLower pat).data <:+: (strLower t).data)

/-- The `CASE WHEN title LIKE 'pat%' THEN 1 ELSE 2 END` sort key. -/
def suggestRank (pat t : String) : Nat :=
  if likeStarts pat t then 1 else 2

/-- `AdvancedSearchEngine.search_suggestions` (`advanced_search.py` lines
235-265) over a table of stored titles (in row order): fail closed for
partial queries shorter than two characters; otherwise filter the titles
matching the pattern as a prefix or substring, order them by
`(CASE rank, LENGTH(title))` — the SQL query's only two sort keys — and
return the first `limit`.  `ORDER BY` with equal keys is modelled as a stable
sort on the stored row order.  `SELECT DISTINCT` is a no-op because `title`
is a `UNIQUE` column of `wiki_articles`.  `suggestKey` is the two-component
sort key of row `i`. -/
def suggestKey (pat : String) (rows : List String) (i : Nat) : Lex (Nat × Nat) :=
  toLex (suggestRank pat (rows.getD i ""), (rows.getD i "").length)

def search_suggestions (titles : List String) (partialQuery : String) (limit : Nat) :
    List String :=
  if partialQuery.length < 2 then []
  else
    let rows := titles.filter
      (fun t => likeStarts partialQuery t || likeContains partialQuery t)
    ((argsortStable (suggestKey partialQuery rows) rows.length).map
      (fun i => rows.getD i "")).take limit

/-! ## Crawler data (`mass_crawler.py`) -/

/-- The article dict built by `MassCrawler.fetch_article` and carried in
`self.article_batch`.  `links` is the `linked_titles` entry, which
`batch_insert_articles` does not persist. -/
structure ArticleDict where
  title : String
  summary : String
  content : String
  clean_content : String
  url : String
  word_count : Nat
  links : List String

/-- The per-row sanitising inside `batch_insert_articles`:
`str(a['title'])[:255]`, `str(a['url'])[:500]`, the other text fields kept
as-is (they are already strings), `int(a['word_count'])` kept as-is. -/
def sanitizeRow (a : ArticleDict) : ArticleDict :=
  { a with title := ⟨a.title.data.take 255⟩, url := ⟨a.url.data.take 500⟩ }

/-- One row of `INSERT IGNORE`: a row whose `title` already exists in the
store (a `UNIQUE` column) is silently skipped, otherwise it is appended. -/
def upsertIgnore (store : List ArticleDict) (a : ArticleDict) : List ArticleDict :=
  if store.any (fun b => b.title == a.title) then store else store ++ [a]

/-- The `executemany` of an `INSERT IGNORE` batch: rows are processed in
order, each against the store as left by the previous ones. -/
def applyBatch (store : List ArticleDict) (batch : List ArticleDict) : List ArticleDict :=
  (batch.map sanitizeRow).foldl upsertIgnore store

/-- `MassCrawler.batch_insert_articles` (`mass_crawler.py` lines 264-300).
`writeOk` is the outcome of the one `executemany`/`commit` the function
performs: on success the sanitised rows are upserted; on a database error the
`except` clause logs, rolls back and returns — the batch is dropped without
any further attempt.  The second component counts how many write attempts
were made (`if not articles: return` makes it 0 for an empty batch). -/
def batch_insert_articles (store : List ArticleDict) (batch : List ArticleDict)
    (writeOk : Bool) : List ArticleDict × Nat :=
  if batch.isEmpty then (store, 0)
  else if writeOk then (applyBatch store batch, 1)
  else (store, 1)

/-! ## Frontier (`mass_crawler.py`, the shared `queue`/`visited` state) -/

/-- The queue-size cap in `worker_thread`: `len(self.queue) < 50000`. -/
def maxQueueSize : Nat := 50000

/-- The crawl scheduler's shared mutable state: `self.visited` and
`self.queue`. -/
structure Frontier where
  visited : List String
  queue : List String

/-- Offering one discovered link to the Frontier on the WORKER path, as
`worker_thread` does at `mass_crawler.py` lines 327-329: append it when it is
not yet visited and the queue is below `maxQueueSize`; the returned flag
reports whether the queue grew.  The code performs no membership test against
the queue itself.  This is only one of the two enqueue sites — the seed
path is `populateEnqueue` below. -/
def enqueueIfNew (f : Frontier) (link : String) : Frontier × Bool :=
  if !(f.visited.contains link) && f.queue.length < maxQueueSize then
    ({ f with queue := f.queue ++ [link] }, true)
  else
    (f, false)

/-- Folding `enqueueIfNew` over a list of links, keeping only the state —
the worker's `for link in article_data['links'][:10]` loop body. -/
def enqueueAll (f : Frontier) (links : List String) : Frontier :=
  links.foldl (fun g l => (enqueueIfNew g l).1) f

/-- Offering one category member to the Frontier on the SEED path, as
`populate_initial_queue` does at `mass_crawler.py` lines 352-354 (and again
for sub-category members at lines 357-359): a main-namespace (`ns == 0`)
member that is not yet visited is appended unconditionally — this path has
no `maxQueueSize` check at all.  (A namespace-14 member triggers subcategory
expansion instead of an append; everything else is skipped.) -/
def populateEnqueue (f : Frontier) (title : String) (ns : Int) : Frontier :=
  if ns == 0 && !(f.visited.contains title) then
    { f with queue := f.queue ++ [title] }
  else
    f

/-! ## Fetcher (`mass_crawler.py`, `MassCrawler.fetch_article`) -/

/-- One entry of the `links` array of the MediaWiki parse payload:
`l.get('ns')` (absent key gives `None`) and `l['*']`. -/
structure ApiLink where
  ns : Option Int
  star : String

/-- The fields `fetch_article` reads from the summary endpoint's payload. -/
structure SummaryPayload where
  title : String
  extract : String
  url : String

/-- The fields `fetch_article` reads from the parse endpoint's payload. -/
structure ParsePayload where
  text : String
  links : List ApiLink

/-- `MassCrawler.fetch_article` (`mass_crawler.py` lines 176-230) after both
HTTP requests have succeeded (transport failures return `None` earlier and
are outside this model): short-circuit when the title is already visited, run
`is_quality_article` on the raw extracted fields, then clean the content with
the external `BeautifulSoup` stripper (`strip`), count words with
`len(clean_content.split())`, and collect `l['*']` for every link with
`ns == 0` — all of them; no cap is applied here. -/
def fetch_article (strip : String → String) (visited : List String) (title : String)
    (summary : SummaryPayload) (parse : ParsePayload) : Option ArticleDict :=
  if visited.contains title then none
  else
    let article_title := summary.title
    let summ := summary.extract
    let url := summary.url
    let content := parse.text
    if !is_quality_article article_title content summ then none
    else
      let clean_content := strip content
      some
        { title := article_title
          summary := summ
          content := content
          clean_content := clean_content
          url := url
          word_count := (pyWords clean_content.data).length
          links := (parse.links.filter (fun l => l.ns == some 0)).map (fun l => l.star) }

/-! ## Run finalisation (`mass_crawler.py`, `MassCrawler.run`) -/

/-- How a crawl run ends: the monitor loop breaks because
`current_count >= MAX_ARTICLES`, or a `KeyboardInterrupt` (the external
cancellation signal) arrives. -/
inductive StopReason where
  | targetReached
  | cancelled

/-- The store/batch state of the scheduler at stop time. -/
structure SchedState where
  store : List ArticleDict
  batch : List ArticleDict

/-- The tail of `MassCrawler.run` (`mass_crawler.py` lines 400-407).  On the
target-reached path the code falls through to
`if self.article_batch: self.batch_insert_articles(self.article_batch)`.
On `KeyboardInterrupt` the `except` clause re-raises at line 403, so control
never reaches the final flush: the state is returned untouched and zero
flush attempts are made.  `writeOk` is the outcome of the final flush's
write, as in `batch_insert_articles`. -/
def finishRun (stop : StopReason) (writeOk : Bool) (s : SchedState) : SchedState × Nat :=
  match stop with
  | .cancelled => (s, 0)
  | .targetReached =>
    if s.batch.isEmpty then (s, 0)
    else
      let r := batch_insert_articles s.store s.batch writeOk
      ({ s with store := r.1 }, r.2)

/-! ## Worker interleaving (`mass_crawler.py`, `MassCrawler.worker_thread`)

A small-step model of the worker pool.  Each worker runs the loop of
`worker_thread` (lines 302-342); the steps below cut it at the points where
shared state is read or written.  `self.lock` is held for the dequeue and for
the whole post-fetch block, so each of those is one atomic step; the
`current in self.visited` test at line 313 and the one at the top of
`fetch_article` (line 178) happen outside the lock, so each is its own step.
`fetchLog` records every title for which the two HTTP requests are issued —
the spec's "counting stub Fetcher" — and `deqLog` records every title
popped from the queue. -/

/-- The phase a worker is in between shared-state accesses. -/
inductive WPhase where
  | idle
  | gotItem (t : String)
  | preFetch (t : String)
  | marking (t : String) (r : Option (List String))
  | stopped
deriving DecidableEq

/-- `MAX_ARTICLES` of `mass_crawler.py`. -/
def MAX_ARTICLES : Nat := 10000

/-- `BATCH_SIZE` of `mass_crawler.py`. -/
def BATCH_SIZE : Nat := 100

/-- The shared crawl state plus the two event logs. -/
structure CrawlSys where
  queue : List String
  visited : List String
  batch : List String
  store : List String
  workers : List WPhase
  fetchLog : List String
  deqLog : List String

/-- The `with self.lock:` block after a fetch attempt (lines 319-334):
add the title to `visited`; if the fetch produced an article, append it to
the batch, offer the first ten of its links to the queue (skipping links
already visited and stopping appends once the queue holds 50000), and flush
the batch to the store when it has reached `BATCH_SIZE`. -/
def markStep (s : CrawlSys) (i : Nat) (t : String) (r : Option (List String)) : CrawlSys :=
  let visited := s.visited.insert t
  match r with
  | none => { s with visited := visited, workers := s.workers.set i .idle }
  | some links =>
    let batch := s.batch ++ [t]
    let queue := (links.take 10).foldl
      (fun q link => if !(visited.contains link) && q.length < maxQueueSize then q ++ [link] else q)
      s.queue
    if BATCH_SIZE ≤ batch.length then
      { queue := queue, visited := visited, batch := [],
        store := batch.foldl (fun st u => if st.contains u then st else st ++ [u]) s.store,
        workers := s.workers.set i .idle, fetchLog := s.fetchLog, deqLog := s.deqLog }
    else
      { s with queue := queue, visited := visited, batch := batch,
               workers := s.workers.set i .idle }

/-- One step of some worker `i`.  `dequeue` is the locked pop at lines
308-311 (guarded by the loop condition `len(self.visited) < MAX_ARTICLES`);
`stopTarget` and `stopEmpty` are the two loop exits; `checkHit`/`checkMiss`
are the unlocked `current in self.visited` test at line 313; `fetchSkip` is
`fetch_article`'s own visited test at line 178 firing; `fetchDo` is that test
passing and the HTTP requests being issued, with a nondeterministic outcome
`r` (`none`: transport failure or quality rejection; `some links`: a fetched
article whose main-namespace links are `links`); `mark` is the locked
post-fetch block. -/
inductive Step : CrawlSys → CrawlSys → Prop where
  | dequeue (s : CrawlSys) (i : Nat) (t : String) (q : List String) :
      s.workers.get? i = some .idle →
      s.visited.length < MAX_ARTICLES →
      s.queue = t :: q →
      Step s { s with queue := q, workers := s.workers.set i (.gotItem t),
                      deqLog := s.deqLog ++ [t] }
  | stopTarget (s : CrawlSys) (i : Nat) :
      s.workers.get? i = some .idle →
      MAX_ARTICLES ≤ s.visited.length →
      Step s { s with workers := s.workers.set i .stopped }
  | stopEmpty (s : CrawlSys) (i : Nat) :
      s.workers.get? i = some .idle →
      s.queue = [] →
      Step s { s with workers := s.workers.set i .stopped }
  | checkHit (s : CrawlSys) (i : Nat) (t : String) :
      s.workers.get? i = some (.gotItem t) →
      t ∈ s.visited →
      Step s { s with workers := s.workers.set i .idle }
  | checkMiss (s : CrawlSys) (i : Nat) (t : String) :
      s.workers.get? i = some (.gotItem t) →
      t ∉ s.visited →
      Step s { s with workers := s.workers.set i (.preFetch t) }
  | fetchSkip (s : CrawlSys) (i : Nat) (t : String) :
      s.workers.get? i = some (.preFetch t) →
      t ∈ s.visited →
      Step s { s with workers := s.workers.set i (.marking t none) }
  | fetchDo (s : CrawlSys) (i : Nat) (t : String) (r : Option (List String)) :
      s.workers.get? i = some (.preFetch t) →
      t ∉ s.visited →
      Step s { s with workers := s.workers.set i (.marking t r),
                      fetchLog := s.fetchLog ++ [t] }
  | mark (s : CrawlSys) (i : Nat) (t : String) (r : Option (List String)) :
      s.workers.get? i = some (.marking t r) →
      Step s (markStep s i t r)

/-- The initial state: the queue as filled by `populate_initial_queue`
(it may contain duplicate titles — that method never checks the queue),
nothing visited, `w` idle workers, empty logs. -/
def initSys (q0 : List String) (w : Nat) : CrawlSys :=
  { queue := q0, visited := [], batch := [], store := [],
    workers := List.replicate w .idle, fetchLog := [], deqLog := [] }

/-- The states a crawl with initial queue `q0` and `w` workers can reach. -/
def ReachableSys (q0 : List String) (w : Nat) (s : CrawlSys) : Prop :=
  Relation.ReflTransGen Step (initSys q0 w) s

/-- `true` for the phases in which a worker holds title `t` after dequeuing
it but before the fetch attempt for it has resolved. -/
def inflight (t : String) : WPhase → Bool
  | .gotItem u => u == t
  | .preFetch u => u == t
  | _ => false

/-! ## Shared helper lemmas -/

theorem enqueueIfNew_visited (f : Frontier) (link : String) (h : link ∈ f.visited) :
    enqueueIfNew f link = (f, false) := by
  unfold enqueueIfNew
  have hc : f.visited.contains link = true := List.elem_eq_true_of_mem h
  rw [hc]
  rfl

theorem enqueueIfNew_full (f : Frontier) (link : String) (h : maxQueueSize ≤ f.queue.length) :
    enqueueIfNew f link = (f, false) := by
  unfold enqueueIfNew
  have : ¬ f.queue.length < maxQueueSize := by omega
  simp [this]

theorem enqueueIfNew_queue_le (f : Frontier) (link : String) :
    (enqueueIfNew f link).1.queue.length ≤ f.queue.length + 1 := by
  unfold enqueueIfNew
  split
  · simp
  · simp

theorem enqueueAll_queue_le (f : Frontier) (links : List String) :
    (enqueueAll f links).queue.length ≤ f.queue.length + links.length := by
  induction links generalizing f with
  | nil => simp [enqueueAll]
  | cons l ls ih =>
    have h1 := enqueueIfNew_queue_le f l
    have h2 := ih (enqueueIfNew f l).1
    simp only [enqueueAll, List.foldl_cons] at h2 ⊢
    simp only [List.length_cons]
    omega

theorem mem_applyBatch_of_mem_store (batch : List ArticleDict) :
    ∀ (store : List ArticleDict) (b : ArticleDict), b ∈ store → b ∈ applyBatch store batch := by
  induction batch with
  | nil => intro store b hb; simpa [applyBatch] using hb
  | cons a rest ih =>
    intro store b hb
    have : b ∈ upsertIgnore store (sanitizeRow a) := by
      unfold upsertIgnore
      split
      · exact hb
      · exact List.mem_append_left _ hb
    simpa [applyBatch, List.map_cons, List.foldl_cons] using ih (upsertIgnore store (sanitizeRow a)) b this

theorem exists_title_upsertIgnore (store : List ArticleDict) (a : ArticleDict) :
    ∃ b ∈ upsertIgnore store a, b.title = a.title := by
  unfold upsertIgnore
  split
  · next h =>
    obtain ⟨b, hb, hbt⟩ := List.any_eq_true.mp h
    exact ⟨b, hb, by simpa using hbt⟩
  · exact ⟨a, List.mem_append_right _ (List.mem_singleton.mpr rfl), rfl⟩

theorem applyBatch_title_mem (batch : List ArticleDict) :
    ∀ (store : List ArticleDict), ∀ a ∈ batch,
      ∃ b ∈ applyBatch store batch, b.title = (sanitizeRow a).title := by
  induction batch with
  | nil => intro store a ha; cases ha
  | cons hd rest ih =>
    intro store a ha
    rcases List.mem_cons.mp ha with rfl | ha'
    · obtain ⟨b, hb, hbt⟩ := exists_title_upsertIgnore store (sanitizeRow a)
      refine ⟨b, ?_, hbt⟩
      have := mem_applyBatch_of_mem_store rest (upsertIgnore store (sanitizeRow a)) b hb
      simpa [applyBatch, List.map_cons, List.foldl_cons] using this
    · have := ih (upsertIgnore store (sanitizeRow hd)) a ha'
      simpa [applyBatch, List.map_cons, List.foldl_cons] using this

/-- A concrete article row used in several concrete evaluations below. -/
def sampleRow : ArticleDict :=
  { title := "Alpha", summary := "s", content := "c", clean_content := "cc",
    url := "u", word_count := 3, links := [] }

/-! ## C2 — quality filter -/

/-- The conditions under which `is_quality_article` rejects, spelled out as
the specification words them. -/
theorem is_quality_article_false_iff (title content summary : String) :
    is_quality_article title content summary = false ↔
      ((∃ p ∈ skip_patterns,
          p.data <:+: (strLower title).data ∨ p.data <:+: (strLower summary).data) ∨
        content.length < 1000 ∨ summary.length < 100) := by
  simp only [is_quality_article]
  by_cases h1 : (skip_patterns.any
      fun p => containsSub p (strLower title) || containsSub p (strLower summary)) = true
  · rw [if_pos h1]
    simp only [List.any_eq_true, Bool.or_eq_true, containsSub, decide_eq_true_eq] at h1
    exact iff_of_true rfl (Or.inl h1)
  · rw [if_neg h1]
    by_cases h2 : content.length < 1000
    · rw [if_pos h2]
      exact iff_of_true rfl (Or.inr (Or.inl h2))
    · rw [if_neg h2]
      by_cases h3 : summary.length < 100
      · rw [if_pos h3]
        exact iff_of_true rfl (Or.inr (Or.inr h3))
      · rw [if_neg h3]
        refine iff_of_false (by simp) ?_
        rintro (hm | hc | hs)
        · apply h1
          simp only [List.any_eq_true, Bool.or_eq_true, containsSub, decide_eq_true_eq]
          exact hm
        · exact h2 hc
        · exact h3 hs

theorem string_mk_replicate_length (n : Nat) (c : Char) :
    (⟨List.replicate n c⟩ : String).length = n := by
  show (List.replicate n c).length = n
  rw [List.length_replicate]

/-- No skip pattern occurs in the lowercased `"Alpha"` or in a run of `'b'`
characters. -/
theorem no_marker_alpha (n : Nat) :
    ¬ ∃ p ∈ skip_patterns,
        p.data <:+: (strLower "Alpha").data ∨ p.data <:+: (strLower ⟨List.replicate n 'b'⟩).data := by
  rintro ⟨p, hp, hcase | hcase⟩
  · revert hcase
    fin_cases hp <;> decide
  · have hrep : (strLower ⟨List.replicate n 'b'⟩).data = List.replicate n 'b' := by
      show (List.replicate n 'b').map Char.toLower = List.replicate n 'b'
      have hb : 'b'.toLower = 'b' := by decide
      rw [List.map_replicate, hb]
    rw [hrep] at hcase
    obtain ⟨s, t, hst⟩ := hcase
    have hmem : ∀ c ∈ p.data, c = 'b' := by
      intro c hc
      have : c ∈ List.replicate n 'b' := by
        rw [← hst]
        exact List.mem_append_left _ (List.mem_append_right _ hc)
      exact List.eq_of_mem_replicate this
    have hall : p.data = List.replicate p.data.length 'b' := List.eq_replicate_of_mem hmem
    revert hall
    fin_cases hp <;> decide

/-- C2 counterexample: the claim instantiates the filter with
`contentMinLength = 100` and predicts that a document with content of length
101, a 100-character marker-free summary and a marker-free title is accepted.
The code's minimum content length is the hard-coded constant 1000, so this
document is rejected. -/
theorem C2_content_min_length_counterexample :
    (⟨List.replicate 101 'a'⟩ : String).length = 101 ∧
    (⟨List.replicate 100 'b'⟩ : String).length = 100 ∧
    is_quality_article "Alpha" ⟨List.replicate 101 'a'⟩ ⟨List.replicate 100 'b'⟩ = false := by
  refine ⟨string_mk_replicate_length 101 'a', string_mk_replicate_length 100 'b', ?_⟩
  rw [is_quality_article_false_iff]
  right; left
  rw [string_mk_replicate_length]
  omega

/-- C2 (amended): `is_quality_article` rejects exactly when the lowercased
title or summary contains a marker substring, or the content is shorter than
1000 characters, or the summary is shorter than 100 characters — the content
minimum is the hard-coded 1000, not a configurable 100.  At that constant the
boundary behaves as the claim's pattern predicts: content of length 999 is
rejected, and content of length 1001 with a 100-character marker-free summary
and a marker-free title is accepted. -/
theorem C2_quality_filter :
    (∀ title content summary : String,
      is_quality_article title content summary = false ↔
        ((∃ p ∈ skip_patterns,
            p.data <:+: (strLower title).data ∨ p.data <:+: (strLower summary).data) ∨
          content.length < 1000 ∨ summary.length < 100)) ∧
    is_quality_article "Alpha" ⟨List.replicate 999 'a'⟩ ⟨List.replicate 100 'b'⟩ = false ∧
    is_quality_article "Alpha" ⟨List.replicate 1001 'a'⟩ ⟨List.replicate 100 'b'⟩ = true := by
  refine ⟨is_quality_article_false_iff, ?_, ?_⟩
  · rw [is_quality_article_false_iff]
    right; left
    rw [string_mk_replicate_length]
    omega
  · cases hb : is_quality_article "Alpha" ⟨List.replicate 1001 'a'⟩ ⟨List.replicate 100 'b'⟩
    · exfalso
      rcases (is_quality_article_false_iff _ _ _).mp hb with hm | hc | hs
      · exact no_marker_alpha 100 hm
      · rw [string_mk_replicate_length] at hc
        omega
      · rw [string_mk_replicate_length] at hs
        omega
    · rfl

/-! ## C3 — Frontier enqueue guards -/

theorem replicateFullQueue :
    maxQueueSize ≤ (⟨[], List.replicate 50000 "Q"⟩ : Frontier).queue.length := by
  show maxQueueSize ≤ (List.replicate 50000 "Q").length
  rw [List.length_replicate]
  decide

/-- C3 counterexample: the claim says offering an entry that is already
present in the queue is a failure-reporting no-op, and that a queue at
`maxQueueSize` never grows.  Both fail.  With an empty visited set and the
queue `["A"]`, offering `"A"` on the worker path appends a duplicate and
reports success: the code only tests `visited` and the queue length, never
queue membership.  And on the seed-population path, a queue already holding
`maxQueueSize` entries still grows by one, because `populate_initial_queue`
has no size check. -/
theorem C3_duplicate_queue_counterexample :
    ((enqueueIfNew ⟨[], ["A"]⟩ "A").1.queue = ["A", "A"] ∧
      (enqueueIfNew ⟨[], ["A"]⟩ "A").2 = true) ∧
    (maxQueueSize ≤ (⟨[], List.replicate 50000 "Q"⟩ : Frontier).queue.length ∧
      (populateEnqueue ⟨[], List.replicate 50000 "Q"⟩ "B" 0).queue =
        List.replicate 50000 "Q" ++ ["B"] ∧
      (List.replicate 50000 "Q" ++ ["B"]).length = 50000 + 1) := by
  refine ⟨⟨rfl, rfl⟩, replicateFullQueue, rfl, ?_⟩
  rw [List.length_append, List.length_replicate]
  rfl

/-- C3 (amended): on the worker path, offering an entry is a
failure-reporting no-op when the entry is already visited or when the queue
has reached `maxQueueSize` (50000), and once the queue is at `maxQueueSize`
no sequence of further worker-path enqueue attempts changes it.  But an
unvisited entry already present in the queue is appended again, and the
seed-population path appends any unvisited main-namespace member with no
queue-size check at all (a visited member is skipped there too), so the
`maxQueueSize` bound is not maintained program-wide. -/
theorem C3_enqueue_guards (f : Frontier) (link : String) :
    (link ∈ f.visited → enqueueIfNew f link = (f, false)) ∧
    (maxQueueSize ≤ f.queue.length → enqueueIfNew f link = (f, false)) ∧
    (maxQueueSize ≤ f.queue.length → ∀ links : List String, enqueueAll f links = f) ∧
    (link ∉ f.visited → (populateEnqueue f link 0).queue = f.queue ++ [link]) ∧
    (link ∈ f.visited → populateEnqueue f link 0 = f) := by
  refine ⟨enqueueIfNew_visited f link, enqueueIfNew_full f link, ?_, ?_, ?_⟩
  · intro h links
    induction links with
    | nil => rfl
    | cons l ls ih =>
      unfold enqueueAll at ih ⊢
      simp only [List.foldl_cons]
      rw [enqueueIfNew_full f l h]
      exact ih
  · intro h
    have hc : f.visited.contains link = false := by
      cases hcb : f.visited.contains link
      · rfl
      · exact absurd (List.mem_of_elem_eq_true hcb) h
    unfold populateEnqueue
    rw [hc]
    rfl
  · intro h
    have hc : f.visited.contains link = true := List.elem_eq_true_of_mem h
    unfold populateEnqueue
    rw [hc]
    rfl

/-- C3 witness: the guards at concrete inputs — a visited entry is refused
on the worker path, a frontier whose queue already holds 50000 entries is
left unchanged by two further worker-path enqueue attempts, and the seed
path appends an unvisited member regardless. -/
theorem C3_enqueue_guards_witness :
    ("A" ∈ (⟨["A"], []⟩ : Frontier).visited ∧
      enqueueIfNew ⟨["A"], []⟩ "A" = (⟨["A"], []⟩, false)) ∧
    (maxQueueSize ≤ (⟨[], List.replicate 50000 "Q"⟩ : Frontier).queue.length ∧
      enqueueAll ⟨[], List.replicate 50000 "Q"⟩ ["B", "C"] = ⟨[], List.replicate 50000 "Q"⟩) ∧
    ("B" ∉ (⟨["A"], ["X"]⟩ : Frontier).visited ∧
      (populateEnqueue ⟨["A"], ["X"]⟩ "B" 0).queue = ["X", "B"]) :=
  ⟨⟨by decide, (C3_enqueue_guards ⟨["A"], []⟩ "A").1 (by decide)⟩,
   ⟨replicateFullQueue, (C3_enqueue_guards ⟨[], List.replicate 50000 "Q"⟩ "B").2.2.1
      replicateFullQueue ["B", "C"]⟩,
   ⟨by decide, (C3_enqueue_guards ⟨["A"], ["X"]⟩ "B").2.2.2.1 (by decide)⟩⟩

/-! ## C4 — related-article lookup for an unindexed id -/

/-- A two-document model in which each document is perfectly similar to
itself and orthogonal to the other. -/
def sampleRelModel : RelatedModel :=
  { articleIds := [1, 2], simMatrix := fun i j => if i == j then 1 else 0 }

/-- C4 counterexample: the claim says an absent `articleId` is reported as an
explicit error, as opposed to an empty result.  The code catches the
`ValueError` from `list.index` and returns the empty list — the very value a
legitimately indexed article with no sufficiently similar neighbours also
produces, so the caller cannot distinguish the two. -/
theorem C4_related_counterexample :
    get_related_articles sampleRelModel 3 10 = [] ∧
    get_related_articles sampleRelModel 1 10 = [] := by
  constructor
  · rfl
  · rfl

/-- C4 (amended): for every `articleId` absent from `articleIds`,
`get_related_articles` returns the empty list (the `ValueError` is caught
and logged, so the process never crashes), not an explicit error value. -/
theorem C4_related_absent_empty (m : RelatedModel) (article_id limit : Nat)
    (h : article_id ∉ m.articleIds) :
    get_related_articles m article_id limit = [] := by
  unfold get_related_articles
  have hnone : m.articleIds.findIdx? (fun x => x == article_id) = none := by
    rw [List.findIdx?_eq_none_iff]
    intro x hx
    simp only [beq_eq_false_iff_ne]
    exact fun he => h (he ▸ hx)
  rw [hnone]

/-- C4 witness: the amended theorem applied to the concrete model. -/
theorem C4_related_absent_empty_witness :
    (3 ∉ sampleRelModel.articleIds) ∧ get_related_articles sampleRelModel 3 10 = [] :=
  ⟨by decide, C4_related_absent_empty sampleRelModel 3 10 (by decide)⟩

/-! ## C6 — final flush on stop -/

/-- C6 counterexample: the claim says the final flush happens on graceful
stop whether the target was reached or an external cancellation signal
arrived.  On the cancellation path (`except KeyboardInterrupt: … raise`) the
run exits before the flush: a non-empty batch buffer never reaches the store
and no write is attempted. -/
theorem C6_cancel_counterexample :
    (finishRun .cancelled true ⟨[], [sampleRow]⟩).1.store = [] ∧
    (finishRun .cancelled true ⟨[], [sampleRow]⟩).2 = 0 ∧
    (⟨[], [sampleRow]⟩ : SchedState).batch ≠ [] := by
  refine ⟨rfl, rfl, by simp⟩

/-- C6 (amended): on a target-reached stop, `run` performs one final flush of
any non-empty partial batch, after which (if the write succeeds) every
batched record's title is in the store and every previously flushed row is
retained; on an external cancellation (`KeyboardInterrupt`) the re-raise at
line 403 skips the final flush entirely — no write is attempted and the
state is unchanged, so records still in the batch buffer are lost. -/
theorem C6_final_flush (s : SchedState) (writeOk : Bool) :
    ((finishRun .cancelled writeOk s).1 = s ∧ (finishRun .cancelled writeOk s).2 = 0) ∧
    (s.batch ≠ [] → (finishRun .targetReached writeOk s).2 = 1) ∧
    (writeOk = true → ∀ a ∈ s.batch,
      ∃ b ∈ (finishRun .targetReached writeOk s).1.store, b.title = (sanitizeRow a).title) ∧
    (writeOk = true → ∀ b ∈ s.store, b ∈ (finishRun .targetReached writeOk s).1.store) := by
  refine ⟨⟨rfl, rfl⟩, ?_, ?_, ?_⟩
  · intro hne
    unfold finishRun
    rw [if_neg (by simpa using hne)]
    unfold batch_insert_articles
    rw [if_neg (by simpa using hne)]
    cases writeOk <;> rfl
  · rintro rfl a ha
    have hne : ¬ s.batch.isEmpty = true := by
      intro hE
      rw [List.isEmpty_iff.mp hE] at ha
      cases ha
    unfold finishRun
    rw [if_neg hne]
    unfold batch_insert_articles
    rw [if_neg hne]
    simpa using applyBatch_title_mem s.batch s.store a ha
  · rintro rfl b hb
    unfold finishRun
    by_cases hE : s.batch.isEmpty = true
    · rw [if_pos hE]
      exact hb
    · rw [if_neg hE]
      unfold batch_insert_articles
      rw [if_neg hE]
      simpa using mem_applyBatch_of_mem_store s.batch s.store b hb

/-- C6 witness: the amended theorem at a concrete stop state with one
batched row and a successful write. -/
theorem C6_final_flush_witness :
    ((⟨[], [sampleRow]⟩ : SchedState).batch ≠ [] ∧
      (finishRun .targetReached true ⟨[], [sampleRow]⟩).2 = 1) ∧
    (sampleRow ∈ (⟨[], [sampleRow]⟩ : SchedState).batch ∧
      ∃ b ∈ (finishRun .targetReached true ⟨[], [sampleRow]⟩).1.store,
        b.title = (sanitizeRow sampleRow).title) :=
  ⟨⟨by simp, (C6_final_flush ⟨[], [sampleRow]⟩ true).2.1 (by simp)⟩,
   ⟨List.mem_singleton.mpr rfl,
    (C6_final_flush ⟨[], [sampleRow]⟩ true).2.2.1 rfl sampleRow (List.mem_singleton.mpr rfl)⟩⟩

/-! ## C7 — batch flush failure handling -/

/-- C7 counterexample: the claim says a failed batch flush is retried as a
whole exactly once (so a failing first write is followed by a second
attempt).  The code's `except` clause only logs and rolls back: exactly one
write is ever attempted, and on failure the batch is dropped on the spot. -/
theorem C7_no_retry_counterexample :
    (batch_insert_articles [] [sampleRow] false).2 = 1 ∧
    (batch_insert_articles [] [sampleRow] false).1 = [] := by
  exact ⟨rfl, rfl⟩

/-- C7 (amended): a non-empty batch flush performs exactly one write attempt
— there is no retry; if that write fails the store is left unchanged (the
batch is dropped after a logged error and a rollback) and the function
returns normally, so a store write failure never terminates the crawl; if it
succeeds, every batched record's title reaches the store. -/
theorem C7_flush_failure_drop (store batch : List ArticleDict) (writeOk : Bool)
    (h : batch ≠ []) :
    (batch_insert_articles store batch writeOk).2 = 1 ∧
    (writeOk = false → (batch_insert_articles store batch writeOk).1 = store) ∧
    (writeOk = true → ∀ a ∈ batch,
      ∃ b ∈ (batch_insert_articles store batch writeOk).1, b.title = (sanitizeRow a).title) := by
  have hne : ¬ batch.isEmpty = true := by simpa using h
  refine ⟨?_, ?_, ?_⟩
  · unfold batch_insert_articles
    rw [if_neg hne]
    cases writeOk <;> rfl
  · rintro rfl
    unfold batch_insert_articles
    rw [if_neg hne]
    rfl
  · rintro rfl a ha
    unfold batch_insert_articles
    rw [if_neg hne]
    simpa using applyBatch_title_mem batch store a ha

/-- C7 witness: the amended theorem at a concrete failing flush. -/
theorem C7_flush_failure_drop_witness :
    ([sampleRow] ≠ ([] : List ArticleDict)) ∧
    (batch_insert_articles [] [sampleRow] false).2 = 1 ∧
    (batch_insert_articles [] [sampleRow] false).1 = [] :=
  ⟨by simp,
   (C7_flush_failure_drop [] [sampleRow] false (by simp)).1,
   (C7_flush_failure_drop [] [sampleRow] false (by simp)).2.1 rfl⟩

/-! ## C8 — link extraction -/

/-- Eleven main-namespace links. -/
def manyLinks : List ApiLink :=
  (List.range 11).map (fun i => ⟨some 0, toString i⟩)

/-- A parse payload with 1000 characters of content and eleven ns-0 links. -/
def samplePayload : ParsePayload :=
  { text := ⟨List.replicate 1000 'a'⟩, links := manyLinks }

/-- A marker-free summary payload with a 100-character extract. -/
def sampleSummary : SummaryPayload :=
  { title := "Alpha Beta", extract := ⟨List.replicate 100 'b'⟩, url := "u" }

set_option maxRecDepth 100000 in
/-- C8 counterexample: the claim says the Fetcher itself caps the returned
links at the fixed constant (ten, the number the scheduler later uses).  On
an article whose payload carries eleven main-namespace links,
`fetch_article` returns all eleven: the truncation `links[:10]` lives in
`worker_thread`, not in the Fetcher. -/
theorem C8_uncapped_links_counterexample :
    ((fetch_article id [] "Alpha Beta" sampleSummary samplePayload).map
      (fun a => a.links.length)) = some 11 ∧ 10 < 11 := by
  constructor
  · rfl
  · decide

/-- C8 (amended): a successful fetch returns exactly the main-namespace
(`ns == 0`) link titles of the parse payload — every returned title comes
from an ns-0 link and their number equals the number of ns-0 entries, with
no cap applied by the Fetcher; the bound of ten per article is enforced only
by the scheduler's enqueue loop, which offers at most the first ten of them
to the Frontier. -/
theorem C8_links_extraction (strip : String → String) (visited : List String)
    (title : String) (summary : SummaryPayload) (parse : ParsePayload)
    (a : ArticleDict) (h : fetch_article strip visited title summary parse = some a) :
    (∀ t ∈ a.links, ∃ l ∈ parse.links, l.ns = some 0 ∧ l.star = t) ∧
    a.links.length = parse.links.countP (fun l => l.ns == some 0) ∧
    (∀ f : Frontier, (enqueueAll f (a.links.take 10)).queue.length ≤ f.queue.length + 10) := by
  have hlinks : a.links = (parse.links.filter (fun l => l.ns == some 0)).map (fun l => l.star) := by
    simp only [fetch_article] at h
    split_ifs at h with h1 h2
    injection h with h'
    subst h'
    rfl
  refine ⟨?_, ?_, ?_⟩
  · intro t ht
    rw [hlinks] at ht
    obtain ⟨l, hl, hlt⟩ := List.mem_map.mp ht
    obtain ⟨hmem, hns⟩ := List.mem_filter.mp hl
    exact ⟨l, hmem, by simpa using hns, hlt⟩
  · rw [hlinks, List.length_map, List.countP_eq_length_filter]
  · intro f
    calc (enqueueAll f (a.links.take 10)).queue.length
        ≤ f.queue.length + (a.links.take 10).length := enqueueAll_queue_le f _
      _ ≤ f.queue.length + 10 := by
          have := List.length_take_le 10 a.links
          omega

set_option maxRecDepth 100000 in
/-- C8 witness: the amended theorem at the concrete payload (eleven ns-0
links, no cap in the fetch result). -/
theorem C8_links_extraction_witness :
    ((fetch_article id [] "T" sampleSummary samplePayload).isSome = true) ∧
    (∀ t ∈ ((fetch_article id [] "T" sampleSummary samplePayload).getD
        ⟨"", "", "", "", "", 0, []⟩).links,
      ∃ l ∈ samplePayload.links, l.ns = some 0 ∧ l.star = t) := by
  have h : fetch_article id [] "T" sampleSummary samplePayload =
      some ((fetch_article id [] "T" sampleSummary samplePayload).getD
        ⟨"", "", "", "", "", 0, []⟩) := rfl
  exact ⟨rfl, (C8_links_extraction id [] "T" sampleSummary samplePayload _ h).1⟩

/-! ## C5 — suggestion ordering -/

/-- C5 counterexample: the claim says equal-rank ties are broken by shorter
title first "and then lexicographically".  The SQL query orders only by the
prefix-rank `CASE` and `LENGTH(title)`; for two stored titles that are both
substring-only matches of `"Cat"` with equal length, the result follows the
stored row order `["Bat Cat", "Art Cat"]`, not the lexicographic order
`["Art Cat", "Bat Cat"]`. -/
theorem C5_lex_tie_counterexample :
    search_suggestions ["Bat Cat", "Art Cat"] "Cat" 10 = ["Bat Cat", "Art Cat"] ∧
    suggestRank "Cat" "Bat Cat" = suggestRank "Cat" "Art Cat" ∧
    ("Bat Cat" : String).length = ("Art Cat" : String).length ∧
    search_suggestions ["Bat Cat", "Art Cat"] "Cat" 10 ≠ ["Art Cat", "Bat Cat"] ∧
    'A' < 'B' := by
  refine ⟨by decide,by decide, by decide, by decide, by decide⟩

/-- C5 (amended): `search_suggestions` fails closed (empty result) for
partial queries shorter than two characters; returns at most `limit` titles,
each a stored title matching the partial query as a (case-insensitive)
prefix or substring; every prefix match precedes every substring-only match,
and equal ranks are ordered by shorter title first — but among titles with
equal rank and equal length the stored row order is kept: the query has no
lexicographic sort key. -/
theorem C5_suggestions_ordering (titles : List String) (partialQuery : String) (limit : Nat) :
    (partialQuery.length < 2 → search_suggestions titles partialQuery limit = []) ∧
    (search_suggestions titles partialQuery limit).length ≤ limit ∧
    (∀ t ∈ search_suggestions titles partialQuery limit,
      t ∈ titles ∧ (likeStarts partialQuery t || likeContains partialQuery t) = true) ∧
    (search_suggestions titles partialQuery limit).Pairwise
      (fun a b => suggestRank partialQuery a ≤ suggestRank partialQuery b ∧
        (suggestRank partialQuery a = suggestRank partialQuery b → a.length ≤ b.length)) := by
  refine ⟨?_, ?_, ?_, ?_⟩
  · intro h
    unfold search_suggestions
    rw [if_pos h]
  · unfold search_suggestions
    split
    · simp
    · exact List.length_take_le _ _
  · intro t ht
    unfold search_suggestions at ht
    split at ht
    · cases ht
    · have ht' := List.mem_of_mem_take ht
      obtain ⟨i, hi, hit⟩ := List.mem_map.mp ht'
      have hilt : i < (titles.filter
          (fun t => likeStarts partialQuery t || likeContains partialQuery t)).length :=
        argsortStable_mem_lt _ _ hi
      rw [List.getD_eq_getElem _ _ hilt] at hit
      have hmem := List.getElem_mem hilt
      rw [hit] at hmem
      obtain ⟨h1, h2⟩ := List.mem_filter.mp hmem
      exact ⟨h1, h2⟩
  · unfold search_suggestions
    split
    · exact List.Pairwise.nil
    · next hlen2 =>
      apply List.Pairwise.sublist (List.take_sublist _ _)
      rw [List.pairwise_map]
      have hsorted := argsortStable_sorted
        (suggestKey partialQuery (titles.filter
          (fun t => likeStarts partialQuery t || likeContains partialQuery t)))
        (titles.filter
          (fun t => likeStarts partialQuery t || likeContains partialQuery t)).length
      refine hsorted.imp ?_
      intro i j hij
      rcases hij with hlt | ⟨heq, _⟩
      · rw [suggestKey, suggestKey, Prod.Lex.lt_iff] at hlt
        rcases hlt with hr | ⟨hr, hl⟩
        · exact ⟨le_of_lt hr, fun he => absurd he (ne_of_lt hr)⟩
        · exact ⟨le_of_eq hr, fun _ => le_of_lt hl⟩
      · have := congrArg (fun x : Lex (Nat × Nat) => (ofLex x).1) heq
        have hl := congrArg (fun x : Lex (Nat × Nat) => (ofLex x).2) heq
        simp only [suggestKey] at this hl
        exact ⟨le_of_eq this, fun _ => le_of_eq hl⟩

/-- C5 witness: the short-query guard and, on the specification's own
example corpus, the rank/length ordering. -/
theorem C5_suggestions_ordering_witness :
    (("C" : String).length < 2 ∧ search_suggestions ["Cat"] "C" 10 = []) ∧
    (search_suggestions ["Cat", "Category Theory", "Concatenation"] "Cat" 10).Pairwise
      (fun a b => suggestRank "Cat" a ≤ suggestRank "Cat" b ∧
        (suggestRank "Cat" a = suggestRank "Cat" b → a.length ≤ b.length)) :=
  ⟨⟨by decide, (C5_suggestions_ordering ["Cat"] "C" 10).1 (by decide)⟩,
   (C5_suggestions_ordering ["Cat", "Category Theory", "Concatenation"] "Cat" 10).2.2.2⟩

/-! ## C1 — search ranking -/

/-- Two documents tied at similarity 1 against the query. -/
def tieModel : SearchModel :=
  { sims := [1, 1], articleIds := [10, 20] }

/-- C1 counterexample: the claim says ties are broken by ascending article
id.  With two documents of equal similarity — an array size on which numpy's
argsort runs its insertion sort and provably returns the stable ascending
order — `argsort()` lists the two row indices in ascending order, and the
reversal `[::-1]` then emits them in descending order, so the result ranks
id 20 before id 10 (and on larger arrays numpy promises no tie order at
all).  The claim also quantifies over every `limit`: for `limit = 0` the
slice `[-0:]` is the whole array, so more than `0` results can come back. -/
theorem C1_tie_order_counterexample :
    advanced_search tieModel 2 = [(20, 1), (10, 1)] ∧
    ¬ tieAscOrdered (advanced_search tieModel 2) ∧
    (advanced_search { sims := [1], articleIds := [10] } 0).length = 1 := by
  have heval : advanced_search tieModel 2 = [(20, 1), (10, 1)] := by decide
  refine ⟨heval, ?_, by decide⟩
  intro hchain
  rw [heval] at hchain
  unfold tieAscOrdered at hchain
  have h := (List.chain'_cons.mp hchain).1
  rcases h with h | ⟨_, h⟩
  · exact absurd h (by decide)
  · exact absurd h (by decide)

theorem takeLastPy_sublist {α : Type} (limit : Nat) (l : List α) :
    (takeLastPy limit l).Sublist l := by
  unfold takeLastPy
  split
  · exact List.Sublist.refl l
  · exact List.drop_sublist _ l

/-- C1 (amended): for every built index model, every admissible argsort
outcome for the query's similarity row (numpy's default quicksort fixes no
order among equal similarities), and every positive `limit`, the search
returns at most `limit` results, every result's similarity strictly exceeds
the 0.01 threshold, and similarities are non-increasing along the result —
but no tie order by document id is guaranteed in general: ascending fails
(whenever numpy's small-array insertion sort applies, the `[::-1]` reversal
emits equal similarities in descending id order, as the counterexample
shows).  The stable outcome used by the executable instance is itself
admissible, and the pipeline is a pure function of the argsort outcome, so
repeated calls with the same model and query return the same ordering. -/
theorem C1_advanced_search_ranking (m : SearchModel) (order : List Nat) (limit : Nat)
    (hord : IsArgsortAsc m.sims order) (hlim : 1 ≤ limit) :
    (advanced_search_with order m limit).length ≤ limit ∧
    (∀ r ∈ advanced_search_with order m limit, similarityThreshold < r.2) ∧
    (advanced_search_with order m limit).Chain' (fun a b => b.2 ≤ a.2) ∧
    IsArgsortAsc m.sims (argsortStable (fun i => m.sims.getD i 0) m.sims.length) ∧
    advanced_search m limit = advanced_search m limit := by
  obtain ⟨hperm, hpair⟩ := hord
  refine ⟨?_, ?_, ?_, ⟨argsortStable_perm _ _, ?_⟩, rfl⟩
  · unfold advanced_search_with
    calc ((takeLastPy limit order).reverse.filterMap _).length
        ≤ (takeLastPy limit order).reverse.length := List.length_filterMap_le _ _
      _ ≤ limit := by
          rw [List.length_reverse]
          unfold takeLastPy
          rw [if_neg (by omega), List.length_drop]
          omega
  · intro r hr
    unfold advanced_search_with at hr
    obtain ⟨i, hi, hf⟩ := List.mem_filterMap.mp hr
    by_cases hc : similarityThreshold < m.sims.getD i 0
    · rw [if_pos hc, Option.some_inj] at hf
      rw [← hf]
      exact hc
    · rw [if_neg hc] at hf
      cases hf
  · unfold advanced_search_with
    apply List.Pairwise.chain'
    apply List.Pairwise.filterMap
      (R := fun i j => m.sims.getD j 0 ≤ m.sims.getD i 0)
    · intro i j hR b hb b' hb'
      by_cases hci : similarityThreshold < m.sims.getD i 0
      · rw [if_pos hci, Option.mem_def, Option.some_inj] at hb
        by_cases hcj : similarityThreshold < m.sims.getD j 0
        · rw [if_pos hcj, Option.mem_def, Option.some_inj] at hb'
          rw [← hb, ← hb']
          exact hR
        · rw [if_neg hcj] at hb'
          cases hb'
      · rw [if_neg hci] at hb
        cases hb
    · have hsub := takeLastPy_sublist limit order
      exact List.pairwise_reverse.mpr (hpair.sublist hsub)
  · have hsorted := argsortStable_sorted (fun i => m.sims.getD i 0) m.sims.length
    refine hsorted.imp ?_
    intro i j hij
    rcases hij with h | ⟨h, _⟩
    · exact le_of_lt h
    · exact le_of_eq h

/-- C1 witness: the amended theorem at a concrete model, argsort outcome and
limit. -/
theorem C1_advanced_search_ranking_witness :
    (IsArgsortAsc tieModel.sims [0, 1] ∧ 1 ≤ 1) ∧
    ((advanced_search_with [0, 1] tieModel 1).length ≤ 1 ∧
      ∀ r ∈ advanced_search_with [0, 1] tieModel 1, similarityThreshold < r.2) :=
  ⟨⟨⟨by exact List.Perm.refl _, by decide⟩, by decide⟩,
   (C1_advanced_search_ranking tieModel [0, 1] 1
      ⟨by exact List.Perm.refl _, by decide⟩ (by decide)).1,
   (C1_advanced_search_ranking tieModel [0, 1] 1
      ⟨by exact List.Perm.refl _, by decide⟩ (by decide)).2.1⟩


/-! ## C10 — idempotence of the text-cleaning pipeline -/

theorem charOfNat_toNat (n : Nat) (h1 : 97 ≤ n) (h2 : n ≤ 122) :
    (Char.ofNat n).toNat = n := by
  have hv : n.isValidChar := by
    left
    omega
  rw [Char.ofNat, dif_pos hv]
  simp [Char.ofNatAux, Char.toNat, UInt32.toNat]

theorem toLower_toLower (c : Char) : (c.toLower).toLower = c.toLower := by
  unfold Char.toLower
  by_cases h : c.toNat ≥ 65 ∧ c.toNat ≤ 90
  · rw [if_pos h]
    have := charOfNat_toNat (c.toNat + 32) (by omega) (by omega)
    rw [if_neg (by omega)]
  · rw [if_neg h, if_neg h]

theorem normChar_idem (c : Char) : normChar (normChar c) = normChar c := by
  simp only [normChar]
  by_cases hA : (c.toLower.isAlphanum || isPySpace c.toLower) = true
  · rw [if_pos hA, toLower_toLower, if_pos hA]
  · rw [if_neg hA]
    decide

theorem foldr_splitStep_word (w : List Char) (hw : ∀ c ∈ w, isPySpace c = false)
    (chunk : List Char) (cs : List (List Char)) :
    w.foldr splitStep (chunk :: cs) = (w ++ chunk) :: cs := by
  induction w with
  | nil => rfl
  | cons c w' ih =>
    have hc : isPySpace c = false := hw c (List.mem_cons_self c w')
    have hw' : ∀ x ∈ w', isPySpace x = false := fun x hx => hw x (List.mem_cons_of_mem c hx)
    rw [List.foldr_cons, ih hw']
    simp [splitStep, hc]

theorem splitChunks_word (w : List Char) (hw : ∀ c ∈ w, isPySpace c = false) :
    splitChunks w = if w.isEmpty then [] else [w] := by
  cases w with
  | nil => rfl
  | cons c w' =>
    have hc : isPySpace c = false := hw c (List.mem_cons_self c w')
    have hw' : ∀ x ∈ w', isPySpace x = false := fun x hx => hw x (List.mem_cons_of_mem c hx)
    show splitStep c (splitChunks w') = _
    cases w'' : w' with
    | nil =>
      simp [splitChunks, splitStep, hc]
    | cons d w3 =>
      rw [← w'']
      have : splitChunks w' = [w'] := by
        rw [splitChunks_word w' hw', if_neg (by rw [w'']; exact Bool.noConfusion)]
      rw [this]
      simp [splitStep, hc]

theorem splitChunks_sep (w : List Char) (hw : ∀ c ∈ w, isPySpace c = false)
    (rest : List Char) :
    splitChunks (w ++ ' ' :: rest) = w :: splitChunks rest := by
  show (w ++ ' ' :: rest).foldr splitStep [] = _
  rw [List.foldr_append]
  have hsp : (' ' :: rest).foldr splitStep [] = [] :: splitChunks rest := by
    rw [List.foldr_cons]
    show splitStep ' ' (splitChunks rest) = _
    simp [splitStep, isPySpace]
  rw [hsp, foldr_splitStep_word w hw, List.append_nil]

theorem pyWords_joinWords : ∀ (ws : List (List Char)),
    (∀ w ∈ ws, (!w.isEmpty) = true ∧ ∀ c ∈ w, isPySpace c = false) →
    pyWords (joinWords ws) = ws := by
  intro ws
  induction ws with
  | nil => intro _; rfl
  | cons w ws' ih =>
    intro h
    have hwne : (!w.isEmpty) = true := (h w (List.mem_cons_self w ws')).1
    have hwsp : ∀ c ∈ w, isPySpace c = false := (h w (List.mem_cons_self w ws')).2
    cases ws' with
    | nil =>
      show pyWords w = [w]
      unfold pyWords
      rw [splitChunks_word w hwsp,
        if_neg (by intro hE; rw [hE] at hwne; cases hwne)]
      simp [hwne]
    | cons v ws'' =>
      have hrest := ih (fun u hu => h u (List.mem_cons_of_mem w hu))
      show pyWords (w ++ ' ' :: joinWords (v :: ws'')) = w :: v :: ws''
      unfold pyWords
      rw [splitChunks_sep w hwsp]
      rw [List.filter_cons, if_pos hwne]
      unfold pyWords at hrest
      rw [hrest]

theorem splitChunks_mem (l : List Char) :
    ∀ w ∈ splitChunks l, ∀ c ∈ w, isPySpace c = false ∧ c ∈ l := by
  induction l with
  | nil => intro w hw; cases hw
  | cons a l' ih =>
    intro w hw c hc
    have hstep : splitChunks (a :: l') = splitStep a (splitChunks l') := rfl
    rw [hstep] at hw
    by_cases ha : isPySpace a = true
    · simp only [splitStep] at hw
      rw [if_pos ha] at hw
      rcases List.mem_cons.mp hw with rfl | hw'
      · cases hc
      · have := ih w hw' c hc
        exact ⟨this.1, List.mem_cons_of_mem a this.2⟩
    · simp only [splitStep] at hw
      rw [if_neg ha] at hw
      cases hch : splitChunks l' with
      | nil =>
        rw [hch] at hw
        rcases List.mem_singleton.mp hw with rfl
        rcases List.mem_singleton.mp hc with rfl
        exact ⟨Bool.eq_false_iff.mpr ha, List.mem_cons_self c l'⟩
      | cons w0 rest =>
        rw [hch] at hw
        rcases List.mem_cons.mp hw with rfl | hw'
        · rcases List.mem_cons.mp hc with rfl | hc'
          · exact ⟨Bool.eq_false_iff.mpr ha, List.mem_cons_self c l'⟩
          · have hw0 : w0 ∈ splitChunks l' := by
              rw [hch]
              exact List.mem_cons_self w0 rest
            have := ih w0 hw0 c hc'
            exact ⟨this.1, List.mem_cons_of_mem a this.2⟩
        · have hwmem : w ∈ splitChunks l' := by
            rw [hch]
            exact List.mem_cons_of_mem w0 hw'
          have := ih w hwmem c hc
          exact ⟨this.1, List.mem_cons_of_mem a this.2⟩

theorem word_map_fixed (w : List Char) (hw : ∀ c ∈ w, normChar c = c) :
    w.map normChar = w := by
  rw [List.map_congr_left hw]
  exact List.map_id' w

theorem joinWords_map_normChar : ∀ (ws : List (List Char)),
    (∀ w ∈ ws, ∀ c ∈ w, normChar c = c) →
    (joinWords ws).map normChar = joinWords ws := by
  intro ws
  induction ws with
  | nil => intro _; rfl
  | cons w ws' ih =>
    intro h
    have hw := h w (List.mem_cons_self w ws')
    cases ws' with
    | nil =>
      show w.map normChar = w
      exact word_map_fixed w hw
    | cons v ws'' =>
      show (w ++ ' ' :: joinWords (v :: ws'')).map normChar = w ++ ' ' :: joinWords (v :: ws'')
      rw [List.map_append, word_map_fixed w hw, List.map_cons]
      have hsp : normChar ' ' = ' ' := by decide
      rw [hsp, ih (fun u hu => h u (List.mem_cons_of_mem w hu))]

theorem preprocessList_idem (l : List Char) :
    preprocessList (preprocessList l) = preprocessList l := by
  have hwords : ∀ w ∈ pyWords (l.map normChar),
      ((!w.isEmpty) = true ∧ ∀ c ∈ w, isPySpace c = false) ∧ ∀ c ∈ w, normChar c = c := by
    intro w hw
    obtain ⟨hmem, hne⟩ := List.mem_filter.mp hw
    refine ⟨⟨hne, fun c hc => (splitChunks_mem (l.map normChar) w hmem c hc).1⟩, ?_⟩
    intro c hc
    have hcl : c ∈ l.map normChar := (splitChunks_mem (l.map normChar) w hmem c hc).2
    obtain ⟨c0, _, hc0⟩ := List.mem_map.mp hcl
    rw [← hc0]
    exact normChar_idem c0
  show preprocessList (joinWords (pyWords (l.map normChar))) = _
  unfold preprocessList
  rw [joinWords_map_normChar _ (fun w hw => (hwords w hw).2)]
  rw [pyWords_joinWords _ (fun w hw => (hwords w hw).1)]

/-- C10: the text-cleaning pipeline shared by indexing and query
normalisation is idempotent — cleaning already-cleaned text changes
nothing. -/
theorem C10_preprocess_idempotent (s : String) :
    preprocess_text (preprocess_text s) = preprocess_text s := by
  show (⟨preprocessList (preprocessList s.data)⟩ : String) = ⟨preprocessList s.data⟩
  rw [preprocessList_idem]

/-! ## C9 — dedup under concurrency -/

/-- The accounting invariant: fetches for `t` already issued plus workers
currently holding `t` between dequeue and fetch never exceed the number of
times `t` was dequeued. -/
def sysInv (s : CrawlSys) : Prop :=
  ∀ t, s.fetchLog.count t + s.workers.countP (inflight t) ≤ s.deqLog.count t

theorem markStep_workers (s : CrawlSys) (i : Nat) (t : String) (r : Option (List String)) :
    (markStep s i t r).workers = s.workers.set i .idle := by
  cases r with
  | none => rfl
  | some links =>
    unfold markStep
    dsimp only
    split
    · rfl
    · rfl

theorem markStep_fetchLog (s : CrawlSys) (i : Nat) (t : String) (r : Option (List String)) :
    (markStep s i t r).fetchLog = s.fetchLog := by
  cases r with
  | none => rfl
  | some links =>
    unfold markStep
    dsimp only
    split
    · rfl
    · rfl

theorem markStep_deqLog (s : CrawlSys) (i : Nat) (t : String) (r : Option (List String)) :
    (markStep s i t r).deqLog = s.deqLog := by
  cases r with
  | none => rfl
  | some links =>
    unfold markStep
    dsimp only
    split
    · rfl
    · rfl

theorem inflight_idle (u : String) : inflight u .idle = false := rfl

theorem inflight_stopped (u : String) : inflight u .stopped = false := rfl

theorem inflight_marking (u t : String) (r : Option (List String)) :
    inflight u (.marking t r) = false := rfl

theorem inflight_gotItem (u t : String) : inflight u (.gotItem t) = (t == u) := rfl

theorem inflight_preFetch (u t : String) : inflight u (.preFetch t) = (t == u) := rfl

theorem countP_set_inflight {l : List WPhase} {i : Nat} {old : WPhase}
    (hget : l.get? i = some old) (u : String) (new : WPhase) :
    (l.set i new).countP (inflight u) =
      l.countP (inflight u) - (if inflight u old = true then 1 else 0) +
        (if inflight u new = true then 1 else 0) := by
  obtain ⟨hi, hval⟩ := List.get?_eq_some.mp hget
  have hidx : l[i] = old := by
    simpa using hval
  have h := List.countP_set (inflight u) l i new hi
  rw [hidx] at h
  exact h

theorem countP_inflight_ge {l : List WPhase} {i : Nat} {old : WPhase}
    (hget : l.get? i = some old) (u : String) :
    (if inflight u old = true then 1 else 0) ≤ l.countP (inflight u) := by
  by_cases h : inflight u old = true
  · rw [if_pos h]
    obtain ⟨hi, hval⟩ := List.get?_eq_some.mp hget
    have hmem : old ∈ l := hval ▸ l.get_mem i hi
    have hpos : 0 < l.countP (inflight u) := List.countP_pos_iff.mpr ⟨old, hmem, h⟩
    omega
  · rw [if_neg h]
    omega

theorem false_ite_zero : (if (false = true) then 1 else 0) = 0 :=
  if_neg (by decide)

theorem sysInv_step {s s' : CrawlSys} (hstep : Step s s') (hinv : sysInv s) : sysInv s' := by
  cases hstep with
  | dequeue i t q hget hcnt hqueue =>
    intro u
    show s.fetchLog.count u + (s.workers.set i (.gotItem t)).countP (inflight u) ≤
      (s.deqLog ++ [t]).count u
    rw [countP_set_inflight hget u (.gotItem t), List.count_append, List.count_singleton,
      inflight_idle, inflight_gotItem, false_ite_zero]
    have h1 := hinv u
    by_cases ht : (t == u) = true
    · rw [if_pos ht]
      omega
    · rw [if_neg ht]
      omega
  | stopTarget i hget hcnt =>
    intro u
    show s.fetchLog.count u + (s.workers.set i .stopped).countP (inflight u) ≤ s.deqLog.count u
    rw [countP_set_inflight hget u .stopped, inflight_idle, inflight_stopped, false_ite_zero]
    have h1 := hinv u
    omega
  | stopEmpty i hget hqueue =>
    intro u
    show s.fetchLog.count u + (s.workers.set i .stopped).countP (inflight u) ≤ s.deqLog.count u
    rw [countP_set_inflight hget u .stopped, inflight_idle, inflight_stopped, false_ite_zero]
    have h1 := hinv u
    omega
  | checkHit i t hget hvis =>
    intro u
    show s.fetchLog.count u + (s.workers.set i .idle).countP (inflight u) ≤ s.deqLog.count u
    rw [countP_set_inflight hget u .idle, inflight_idle, inflight_gotItem, false_ite_zero]
    have h1 := hinv u
    by_cases ht : (t == u) = true
    · rw [if_pos ht]
      omega
    · rw [if_neg ht]
      omega
  | checkMiss i t hget hvis =>
    intro u
    show s.fetchLog.count u + (s.workers.set i (.preFetch t)).countP (inflight u) ≤
      s.deqLog.count u
    rw [countP_set_inflight hget u (.preFetch t), inflight_gotItem, inflight_preFetch]
    have h1 := hinv u
    have h2 := countP_inflight_ge hget u
    rw [inflight_gotItem] at h2
    by_cases ht : (t == u) = true
    · rw [if_pos ht] at h2 ⊢
      omega
    · rw [if_neg ht] at h2 ⊢
      omega
  | fetchSkip i t hget hvis =>
    intro u
    show s.fetchLog.count u + (s.workers.set i (.marking t none)).countP (inflight u) ≤
      s.deqLog.count u
    rw [countP_set_inflight hget u (.marking t none), inflight_preFetch, inflight_marking,
      false_ite_zero]
    have h1 := hinv u
    by_cases ht : (t == u) = true
    · rw [if_pos ht]
      omega
    · rw [if_neg ht]
      omega
  | fetchDo i t r hget hvis =>
    intro u
    show (s.fetchLog ++ [t]).count u +
        (s.workers.set i (.marking t r)).countP (inflight u) ≤ s.deqLog.count u
    rw [countP_set_inflight hget u (.marking t r), inflight_preFetch, inflight_marking,
      false_ite_zero, List.count_append, List.count_singleton]
    have h1 := hinv u
    have h2 := countP_inflight_ge hget u
    rw [inflight_preFetch] at h2
    by_cases ht : (t == u) = true
    · rw [if_pos ht] at h2 ⊢
      omega
    · rw [if_neg ht] at h2 ⊢
      omega
  | mark i t r hget =>
    intro u
    show (markStep s i t r).fetchLog.count u +
        (markStep s i t r).workers.countP (inflight u) ≤ (markStep s i t r).deqLog.count u
    rw [markStep_fetchLog, markStep_deqLog, markStep_workers,
      countP_set_inflight hget u .idle, inflight_marking, inflight_idle, false_ite_zero]
    have h1 := hinv u
    omega

/-- C9 (amended): under every interleaving of the worker pool, the number of
Fetcher invocations for a title never exceeds the number of times that title
was dequeued — the visited set prevents re-fetching a title once it has been
marked — but a title enqueued (and hence dequeued) more than once can be
fetched more than once, because the visited check and the post-fetch
`visited.add` are separated by the unlocked fetch. -/
theorem C9_fetch_per_dequeue (q0 : List String) (w : Nat) (s : CrawlSys)
    (h : ReachableSys q0 w s) (t : String) :
    s.fetchLog.count t ≤ s.deqLog.count t := by
  have hinv : sysInv s := by
    unfold ReachableSys at h
    induction h with
    | refl =>
      intro u
      have hcp : (List.replicate w WPhase.idle).countP (inflight u) = 0 := by
        rw [List.countP_eq_zero]
        intro a ha
        rw [List.eq_of_mem_replicate ha, inflight_idle]
        exact Bool.false_ne_true
      show ([] : List String).count u + (List.replicate w WPhase.idle).countP (inflight u) ≤
        ([] : List String).count u
      rw [hcp]
      omega
    | tail hsteps hstep ih => exact sysInv_step hstep ih
  have := hinv t
  omega

/-- C9 witness: the amended theorem at the initial state itself. -/
theorem C9_fetch_per_dequeue_witness :
    ReachableSys ["A"] 1 (initSys ["A"] 1) ∧
    (initSys ["A"] 1).fetchLog.count "A" ≤ (initSys ["A"] 1).deqLog.count "A" :=
  ⟨Relation.ReflTransGen.refl,
   C9_fetch_per_dequeue ["A"] 1 (initSys ["A"] 1) Relation.ReflTransGen.refl "A"⟩

/-- The state after both workers have fetched the twice-enqueued title. -/
def badTraceEnd : CrawlSys :=
  { queue := [], visited := [], batch := [], store := [],
    workers := [.marking "A" none, .marking "A" none],
    fetchLog := ["A", "A"], deqLog := ["A", "A"] }

/-- C9 counterexample: the claim says at most one Fetcher invocation occurs
system-wide per title.  Starting from a queue holding the same title twice
(the code never deduplicates the queue — see C3), two workers can each pop
one copy, each pass the visited check (nothing is marked visited until after
the fetch), and each issue the HTTP fetch: the counting-stub fetch log
records two invocations for `"A"`. -/
theorem C9_double_fetch_counterexample :
    ReachableSys ["A", "A"] 2 badTraceEnd ∧ badTraceEnd.fetchLog.count "A" = 2 := by
  constructor
  · unfold ReachableSys
    apply Relation.ReflTransGen.head (Step.dequeue _ 0 "A" ["A"] (by rfl) (by decide) rfl)
    apply Relation.ReflTransGen.head (Step.dequeue _ 1 "A" [] (by rfl) (by decide) rfl)
    apply Relation.ReflTransGen.head (Step.checkMiss _ 0 "A" (by rfl) (by decide))
    apply Relation.ReflTransGen.head (Step.checkMiss _ 1 "A" (by rfl) (by decide))
    apply Relation.ReflTransGen.head (Step.fetchDo _ 0 "A" none (by rfl) (by decide))
    apply Relation.ReflTransGen.head (Step.fetchDo _ 1 "A" none (by rfl) (by decide))
    exact Relation.ReflTransGen.refl
  · decide
